import Mathlib

/-!
Verification of the approval-decision engine of the safe-apt repository
(`src/publisher/build_approved_list.py`, class `ApprovedListBuilder`).

The Python code is shallowly embedded as follows.

* A scan-result JSON object becomes a `ScanRecord` whose fields are
  `Option`-valued, mirroring `dict.get`: a missing JSON field is `none`.
* Python `str` comparison (used by `list.sort(key=..., reverse=True)` and
  `sorted`) is lexicographic comparison of the code-point sequences; it is
  embedded as `charListLt` over `String.data`.
* `list.sort(key=..., reverse=True)` is a stable descending sort; it is
  embedded as the stable descending insertion sort `sortDescByScanDate`,
  which agrees extensionally with any stable descending sort.
* `datetime.fromisoformat` together with subtraction from `datetime.now()`
  is abstracted by a parse function `p : String → Option Int` giving the
  timestamp in seconds (`none` models both a parse failure, `ValueError`,
  and an aware/naive mismatch, `TypeError`, both of which the code catches),
  and by `now : Int`, the wall-clock time in seconds at call time.
  `timedelta(hours=h)` is `h * 3600` seconds.
* Reading one scan file is `open` + `json.load` + the annotation
  `result["_file"] = scan_file.name`, guarded by
  `except (json.JSONDecodeError, IOError)`.  That clause catches a JSON
  decode error and an I/O error, but it does not catch the `TypeError`
  raised by the annotation when the file holds valid JSON that is not an
  object, nor the `UnicodeDecodeError` raised by `json.load` on bytes that
  are not valid text.  A file is therefore embedded as a pair of its name
  and a `ScanFileRead` outcome with one constructor per case, and
  `_load_scan_results` returns `Except String (List ScanRecord)`: caught
  failures are skipped, uncaught ones abort the loop and propagate.
* `_write_approved_list` opens the output with mode "w", truncating the
  previous content; it is embedded as a function that receives the old file
  content, ignores it, and either returns the full new content (`.ok`) or
  fails (`.error`), the boolean `writeOk` modelling whether the `IOError`
  that the code logs and re-raises occurs.  `build_approved_list` therefore
  returns `Except String (Finset String × String)`: the approved set
  together with the bytes now stored in the output file, or the propagated
  write error.
-/

/-- A scan-result record as parsed from one JSON file.  Fields the engine
reads via `dict.get` are `Option`-valued; `file` is the `_file` annotation
added by `_load_scan_results`. -/
structure ScanRecord where
  package_name : Option String
  scan_date : Option String
  status : Option String
  cve_count : Option Nat
  file : Option String
deriving DecidableEq, Repr

/-- Python `str` less-than on code-point sequences: `a < b` iff at the first
differing position the code point of `a` is smaller, or `a` is a proper
prefix of `b`. -/
def charListLt : List Char → List Char → Bool
  | [], [] => false
  | [], _ :: _ => true
  | _ :: _, [] => false
  | a :: as, b :: bs =>
    if a < b then true
    else if b < a then false
    else charListLt as bs

/-- The sort key used by `_find_latest_scan`: `x.get("scan_date", "")`. -/
def scanKey (scan : ScanRecord) : String :=
  scan.scan_date.getD ""

/-- Insert a record into a list already sorted by `scan_date` descending,
before the first element whose key is not strictly greater (so an element
inserted from the left stays before later elements with an equal key). -/
def orderedInsertDesc (x : ScanRecord) : List ScanRecord → List ScanRecord
  | [] => [x]
  | y :: ys =>
    if charListLt (scanKey x).data (scanKey y).data then
      y :: orderedInsertDesc x ys
    else
      x :: y :: ys

/-- Stable descending sort by `scan_date`, the embedding of
`matching_scans.sort(key=lambda x: x.get("scan_date", ""), reverse=True)`
(CPython's sort is stable, and `reverse=True` preserves stability). -/
def sortDescByScanDate : List ScanRecord → List ScanRecord
  | [] => []
  | x :: xs => orderedInsertDesc x (sortDescByScanDate xs)

/-- First element of a list achieving the maximal `scan_date` key (`none`
on the empty list); used to characterise the head of the stable descending
sort. -/
def firstMaxScan : List ScanRecord → Option ScanRecord
  | [] => none
  | x :: xs =>
    match firstMaxScan xs with
    | none => some x
    | some y => if charListLt (scanKey x).data (scanKey y).data then some y else some x

/-- Embedding of `ApprovedListBuilder._find_latest_scan`: filter the records
whose `package_name` equals the target, return `None` if none match, else
sort descending by `scan_date` and take the first. -/
def findLatestScan (package_name : String) (scan_results : List ScanRecord) :
    Option ScanRecord :=
  let matching_scans := scan_results.filter (fun scan => scan.package_name == some package_name)
  if matching_scans.isEmpty then none
  else (sortDescByScanDate matching_scans).head?

/-- Embedding of `ApprovedListBuilder._is_scan_fresh`: `False` when
`scan_date` is absent or empty, `False` when it does not parse, otherwise
`now - scan_date < timedelta(hours=max_scan_age_hours)`. -/
def isScanFresh (p : String → Option Int) (now max_scan_age_hours : Int)
    (scan_result : ScanRecord) : Bool :=
  match scan_result.scan_date with
  | none => false
  | some scan_date_str =>
    if scan_date_str = "" then false
    else
      match p scan_date_str with
      | none => false
      | some scan_date => decide (now - scan_date < max_scan_age_hours * 3600)

/-- Accumulator-passing core of Python `str.split` restricted to a
one-character separator: collects the current segment in reverse. -/
def pySplitGo (c : Char) : List Char → List Char → List (List Char)
  | [], acc => [acc.reverse]
  | x :: xs, acc =>
    if x = c then acc.reverse :: pySplitGo c xs []
    else pySplitGo c xs (x :: acc)

/-- Embedding of Python `s.split(sep)` for a one-character separator. -/
def pySplit (c : Char) (s : List Char) : List (List Char) :=
  pySplitGo c s []

/-- Embedding of `ApprovedListBuilder._extract_package_name`:
`package_key.split("_")[0] if "_" in package_key else package_key`. -/
def extractPackageName (package_key : String) : String :=
  if package_key.data.contains '_' then ⟨(pySplit '_' package_key.data).headD []⟩
  else package_key

/-- Outcome of processing one scan file inside the `try` block of
`_load_scan_results` (`scan_file.open` + `json.load` +
`result["_file"] = scan_file.name`): `object` is a successfully parsed
JSON object; `badJson` (`json.JSONDecodeError`) and `ioError` (`IOError`)
are caught by the `except` clause and only logged; `nonObject` (valid JSON
that is not an object, so the `result["_file"]` assignment raises
`TypeError`) and `undecodable` (bytes that are not valid text, so
`json.load` raises `UnicodeDecodeError`) are caught by neither exception
class and propagate. -/
inductive ScanFileRead where
  | object : ScanRecord → ScanFileRead
  | badJson : ScanFileRead
  | ioError : ScanFileRead
  | nonObject : ScanFileRead
  | undecodable : ScanFileRead
deriving DecidableEq, Repr

/-- The loop of `_load_scan_results` over the remaining files, carrying
the records accumulated so far: caught failures are skipped, parsed
objects are annotated with their file name and appended, and an uncaught
exception aborts the loop and propagates. -/
def loadScanResultsGo (acc : List ScanRecord) :
    List (String × ScanFileRead) → Except String (List ScanRecord)
  | [] => .ok acc
  | f :: fs =>
    match f.2 with
    | .object result => loadScanResultsGo (acc ++ [{ result with file := some f.1 }]) fs
    | .badJson => loadScanResultsGo acc fs
    | .ioError => loadScanResultsGo acc fs
    | .nonObject => .error "TypeError"
    | .undecodable => .error "UnicodeDecodeError"

/-- Embedding of `ApprovedListBuilder._load_scan_results`: each directory
entry is a pair of a file name and the outcome of reading/parsing it.
Entries whose failure the `except (json.JSONDecodeError, IOError)` clause
catches are skipped with a warning; an uncaught `TypeError` or
`UnicodeDecodeError` aborts the whole call. -/
def loadScanResults (scanFiles : List (String × ScanFileRead)) :
    Except String (List ScanRecord) :=
  loadScanResultsGo [] scanFiles

/-- The decision `build_approved_list` makes for one requested key: `true`
iff the latest scan for the key's extracted name exists, is fresh, and has
status `"approved"` (status defaulting to `"error"` when absent). -/
def keyApproved (p : String → Option Int) (now max_scan_age_hours : Int)
    (scan_results : List ScanRecord) (package_key : String) : Bool :=
  match findLatestScan (extractPackageName package_key) scan_results with
  | none => false
  | some scan_result =>
    isScanFresh p now max_scan_age_hours scan_result
      && (scan_result.status.getD "error" == "approved")

/-- One iteration of the loop in `build_approved_list` over the state
`(approved_packages, blocked_packages, missing_scans)`. -/
def processKey (p : String → Option Int) (now max_scan_age_hours : Int)
    (scan_results : List ScanRecord)
    (st : Finset String × List String × List String) (package_key : String) :
    Finset String × List String × List String :=
  match findLatestScan (extractPackageName package_key) scan_results with
  | none => (st.1, st.2.1, st.2.2 ++ [package_key])
  | some scan_result =>
    if !isScanFresh p now max_scan_age_hours scan_result then
      (st.1, st.2.1, st.2.2 ++ [package_key])
    else if scan_result.status.getD "error" == "approved" then
      (insert package_key st.1, st.2.1, st.2.2)
    else
      (st.1, st.2.1 ++ [package_key], st.2.2)

/-- The bytes `_write_approved_list` stores: each approved key in sorted
order (Python `sorted` on `str` is the lexicographic order on code points,
which is Mathlib's `≤` on `String`), each followed by a newline. -/
def renderApprovedList (approved_packages : Finset String) : String :=
  String.join ((approved_packages.sort (· ≤ ·)).map (fun package_key => package_key ++ "\n"))

/-- Embedding of `ApprovedListBuilder._write_approved_list`: the output is
opened with mode "w", so the previous content `oldContent` is discarded;
on success the file holds exactly the rendered sorted list, on an
`IOError` the exception is logged and re-raised. -/
def writeApprovedList (writeOk : Bool) (oldContent : String)
    (approved_packages : Finset String) : Except String String :=
  if writeOk then .ok (renderApprovedList approved_packages)
  else .error "IOError"

/-- Embedding of `ApprovedListBuilder.build_approved_list`: load all scan
results (an uncaught loader exception propagates, since the call at line
59 is unguarded), fold the per-key decision over the requested keys, then
write the approved set.  Returns the approved set and the new output-file
content, or propagates the loader or write failure. -/
def build_approved_list (p : String → Option Int) (now max_scan_age_hours : Int)
    (scanFiles : List (String × ScanFileRead)) (writeOk : Bool)
    (oldContent : String) (package_list : List String) :
    Except String (Finset String × String) :=
  match loadScanResults scanFiles with
  | .error e => .error e
  | .ok scan_results =>
    let st := package_list.foldl (processKey p now max_scan_age_hours scan_results)
      ((∅ : Finset String), ([] : List String), ([] : List String))
    match writeApprovedList writeOk oldContent st.1 with
    | .ok content => .ok (st.1, content)
    | .error e => .error e

/-- A code-point sequence is never less than itself. -/
theorem charListLt_irrefl : ∀ l : List Char, charListLt l l = false := by
  intro l
  induction l with
  | nil => rfl
  | cons a as ih => simp [charListLt, lt_irrefl, ih]

/-- Python string less-than is asymmetric. -/
theorem charListLt_asymm : ∀ a b : List Char,
    charListLt a b = true → charListLt b a = false := by
  intro a
  induction a with
  | nil =>
    intro b h
    cases b with
    | nil => simp [charListLt] at h
    | cons c cs => rfl
  | cons x xs ih =>
    intro b h
    cases b with
    | nil => simp [charListLt] at h
    | cons y ys =>
      simp only [charListLt] at h ⊢
      by_cases hxy : x < y
      · simp only [hxy, if_true] at h ⊢
        simp [asymm hxy, not_lt_of_lt hxy]
      · by_cases hyx : y < x
        · simp [hxy, hyx] at h
        · simp only [hxy, hyx, if_false] at h ⊢
          exact ih ys h

/-- Transitivity of Python string greater-or-equal, stated on the Boolean
less-than: if `a` is not less than `b` and `b` is not less than `c`, then
`a` is not less than `c`. -/
theorem charListLt_false_trans : ∀ a b c : List Char,
    charListLt a b = false → charListLt b c = false → charListLt a c = false := by
  intro a
  induction a with
  | nil =>
    intro b c h1 h2
    cases b with
    | nil =>
      cases c with
      | nil => rfl
      | cons z zs => simp [charListLt] at h2
    | cons y ys => simp [charListLt] at h1
  | cons x xs ih =>
    intro b c h1 h2
    cases c with
    | nil => rfl
    | cons z zs =>
      cases b with
      | nil => simp [charListLt] at h2
      | cons y ys =>
        simp only [charListLt] at h1 h2 ⊢
        by_cases hxy : x < y
        · simp [hxy] at h1
        · by_cases hyz : y < z
          · simp [hyz] at h2
          · by_cases hyx : y < x
            · have hzx : z < x := lt_of_le_of_lt (le_of_not_lt hyz) hyx
              simp [not_lt_of_lt hzx, hzx]
            · by_cases hzy : z < y
              · have hzx : z < x := lt_of_lt_of_le hzy (le_of_not_lt hxy)
                simp [not_lt_of_lt hzx, hzx]
              · have hxz : ¬ x < z := by
                  have : x = y := le_antisymm (le_of_not_lt hyx) (le_of_not_lt hxy)
                  have : y = z := le_antisymm (le_of_not_lt hzy) (le_of_not_lt hyz)
                  intro hlt
                  subst_vars
                  exact lt_irrefl _ hlt
                have hzx : ¬ z < x := by
                  have hxy' : x = y := le_antisymm (le_of_not_lt hyx) (le_of_not_lt hxy)
                  have hyz' : y = z := le_antisymm (le_of_not_lt hzy) (le_of_not_lt hyz)
                  intro hlt
                  subst_vars
                  exact lt_irrefl _ hlt
                simp only [hxz, hzx, if_false]
                simp only [hxy, hyx, if_false] at h1
                simp only [hyz, hzy, if_false] at h2
                exact ih ys zs h1 h2

/-- The head of the stable descending insertion sort is the first element
achieving the maximal `scan_date` key. -/
theorem head_sortDescByScanDate : ∀ l : List ScanRecord,
    (sortDescByScanDate l).head? = firstMaxScan l := by
  intro l
  induction l with
  | nil => rfl
  | cons x xs ih =>
    simp only [sortDescByScanDate, firstMaxScan]
    cases hs : sortDescByScanDate xs with
    | nil =>
      rw [hs] at ih
      simp only [List.head?] at ih
      rw [← ih]
      rfl
    | cons y ys =>
      rw [hs] at ih
      simp only [List.head?] at ih
      rw [← ih]
      simp only [orderedInsertDesc]
      by_cases h : charListLt (scanKey x).data (scanKey y).data
      · simp [h]
      · simp [h]

/-- `firstMaxScan` returns `none` exactly on the empty list. -/
theorem firstMaxScan_eq_none_iff (l : List ScanRecord) :
    firstMaxScan l = none ↔ l = [] := by
  cases l with
  | nil => simp [firstMaxScan]
  | cons x xs =>
    simp only [firstMaxScan]
    cases firstMaxScan xs with
    | none => simp
    | some y =>
      by_cases h : charListLt (scanKey x).data (scanKey y).data <;> simp [h]

/-- The element `firstMaxScan` picks splits the list into a strictly
smaller-keyed prefix and a suffix, and its key is maximal in the list. -/
theorem firstMaxScan_spec : ∀ (l : List ScanRecord) (r : ScanRecord),
    firstMaxScan l = some r →
    ∃ l₁ l₂, l = l₁ ++ r :: l₂ ∧
      (∀ s ∈ l₁, charListLt (scanKey s).data (scanKey r).data = true) ∧
      (∀ s ∈ l, charListLt (scanKey r).data (scanKey s).data = false) := by
  intro l
  induction l with
  | nil => intro r h; simp [firstMaxScan] at h
  | cons a rest ih =>
    intro r h
    cases hm : firstMaxScan rest with
    | none =>
      simp only [firstMaxScan, hm, Option.some.injEq] at h
      subst h
      have hrest : rest = [] := (firstMaxScan_eq_none_iff rest).mp hm
      subst hrest
      exact ⟨[], [], rfl, by simp, by simp [charListLt_irrefl]⟩
    | some b =>
      simp only [firstMaxScan, hm] at h
      obtain ⟨l₁, l₂, hsplit, hlt, hmax⟩ := ih b hm
      by_cases hab : charListLt (scanKey a).data (scanKey b).data
      · rw [if_pos hab] at h
        simp only [Option.some.injEq] at h
        subst h
        refine ⟨a :: l₁, l₂, by rw [hsplit]; rfl, ?_, ?_⟩
        · intro s hs
          rcases List.mem_cons.mp hs with hs | hs
          · exact hs ▸ hab
          · exact hlt s hs
        · intro s hs
          rcases List.mem_cons.mp hs with hs | hs
          · exact hs ▸ charListLt_asymm _ _ hab
          · exact hmax s hs
      · rw [if_neg hab] at h
        simp only [Option.some.injEq] at h
        subst h
        refine ⟨[], rest, rfl, by simp, ?_⟩
        intro s hs
        rcases List.mem_cons.mp hs with hs | hs
        · exact hs ▸ charListLt_irrefl _
        · exact charListLt_false_trans _ _ _ (Bool.eq_false_iff.mpr hab) (hmax s hs)

/-- The approved-set component of one loop iteration: the key is inserted
exactly when `keyApproved` holds, and the set is untouched otherwise. -/
theorem processKey_fst (p : String → Option Int) (now max_scan_age_hours : Int)
    (scan_results : List ScanRecord) (st : Finset String × List String × List String)
    (package_key : String) :
    (processKey p now max_scan_age_hours scan_results st package_key).1 =
      if keyApproved p now max_scan_age_hours scan_results package_key then
        insert package_key st.1
      else st.1 := by
  cases hfind : findLatestScan (extractPackageName package_key) scan_results with
  | none => simp [processKey, keyApproved, hfind]
  | some scan_result =>
    by_cases hf : isScanFresh p now max_scan_age_hours scan_result
    · by_cases hs : scan_result.status.getD "error" == "approved"
      · simp [processKey, keyApproved, hfind, hf, hs]
      · simp [processKey, keyApproved, hfind, hf, hs]
    · simp [processKey, keyApproved, hfind, hf]

/-- The approved set accumulated by the loop of `build_approved_list` is
the initial set together with the requested keys satisfying `keyApproved`. -/
theorem foldl_processKey_fst (p : String → Option Int) (now max_scan_age_hours : Int)
    (scan_results : List ScanRecord) :
    ∀ (package_list : List String) (st : Finset String × List String × List String),
    (package_list.foldl (processKey p now max_scan_age_hours scan_results) st).1 =
      st.1 ∪ (package_list.filter (keyApproved p now max_scan_age_hours scan_results)).toFinset := by
  intro package_list
  induction package_list with
  | nil => intro st; simp
  | cons a l ih =>
    intro st
    simp only [List.foldl_cons, List.filter_cons]
    rw [ih]
    rw [processKey_fst]
    by_cases ha : keyApproved p now max_scan_age_hours scan_results a
    · simp only [ha, if_true, List.toFinset_cons]
      rw [Finset.insert_union, Finset.union_insert]
    · simp [ha]

/-- When the load succeeds and the output write succeeds,
`build_approved_list` returns the set of requested keys whose latest scan
is fresh and approved, together with the rendered sorted file content. -/
theorem build_approved_list_eq_ok (p : String → Option Int) (now max_scan_age_hours : Int)
    (scanFiles : List (String × ScanFileRead)) (oldContent : String)
    (package_list : List String) (scan_results : List ScanRecord)
    (hload : loadScanResults scanFiles = .ok scan_results) :
    build_approved_list p now max_scan_age_hours scanFiles true oldContent package_list =
      .ok ((package_list.filter
              (keyApproved p now max_scan_age_hours scan_results)).toFinset,
           renderApprovedList
             (package_list.filter
               (keyApproved p now max_scan_age_hours scan_results)).toFinset) := by
  simp only [build_approved_list, hload, writeApprovedList, if_true]
  rw [foldl_processKey_fst]
  simp

/-- When the loader hits an uncaught exception, `build_approved_list`
propagates it, whatever the write outcome would have been. -/
theorem build_approved_list_eq_error_load (p : String → Option Int)
    (now max_scan_age_hours : Int) (scanFiles : List (String × ScanFileRead))
    (writeOk : Bool) (oldContent : String) (package_list : List String) (e : String)
    (hload : loadScanResults scanFiles = .error e) :
    build_approved_list p now max_scan_age_hours scanFiles writeOk oldContent package_list =
      .error e := by
  simp [build_approved_list, hload]

/-- When the load succeeds but the output write fails,
`build_approved_list` propagates the `IOError`. -/
theorem build_approved_list_eq_error_write (p : String → Option Int)
    (now max_scan_age_hours : Int) (scanFiles : List (String × ScanFileRead))
    (oldContent : String) (package_list : List String) (scan_results : List ScanRecord)
    (hload : loadScanResults scanFiles = .ok scan_results) :
    build_approved_list p now max_scan_age_hours scanFiles false oldContent package_list =
      .error "IOError" := by
  simp [build_approved_list, hload, writeApprovedList]

/-- The first segment produced by `pySplitGo` is the pending accumulator
followed by the characters before the first separator. -/
theorem pySplitGo_headD (c : Char) : ∀ (s acc : List Char),
    (pySplitGo c s acc).headD [] = acc.reverse ++ s.takeWhile (fun x => x != c) := by
  intro s
  induction s with
  | nil => intro acc; simp [pySplitGo]
  | cons x xs ih =>
    intro acc
    simp only [pySplitGo]
    by_cases h : x = c
    · subst h
      rw [if_pos rfl, List.takeWhile_cons_of_neg (by simp)]
      simp
    · rw [if_neg h, ih (x :: acc), List.takeWhile_cons_of_pos (by simp [h])]
      simp

/-- `takeWhile (· != c)` keeps the whole list when `c` does not occur. -/
theorem takeWhile_ne_of_not_contains : ∀ (l : List Char) (c : Char),
    l.contains c = false → l.takeWhile (fun x => x != c) = l := by
  intro l
  induction l with
  | nil => intro c _; rfl
  | cons x xs ih =>
    intro c h
    simp only [List.contains_cons, Bool.or_eq_false_iff] at h
    rw [List.takeWhile_cons_of_pos (by simp [h.1]; exact fun he => by simp [he] at h)]
    rw [ih c h.2]

/-- Concrete timestamp parser used in concrete scenarios: two fixed
ISO-8601 strings one hour apart, every other string unparsable. -/
def parseFix : String → Option Int := fun s =>
  if s = "2025-01-01T00:00:00" then some 0
  else if s = "2025-01-02T00:00:00" then some 3600
  else none

/-- An approved scan of package `pkg` with the older of the two dates. -/
def approvedOlderRec : ScanRecord :=
  { package_name := some "pkg", scan_date := some "2025-01-01T00:00:00",
    status := some "approved", cve_count := some 0, file := none }

/-- A blocked scan of package `pkg` with the newer of the two dates. -/
def blockedNewerRec : ScanRecord :=
  { package_name := some "pkg", scan_date := some "2025-01-02T00:00:00",
    status := some "blocked", cve_count := some 3, file := none }

/-- A blocked scan of package `pkg` with the older of the two dates. -/
def blockedOlderRec : ScanRecord :=
  { package_name := some "pkg", scan_date := some "2025-01-01T00:00:00",
    status := some "blocked", cve_count := some 3, file := none }

/-- An approved scan of package `pkg` with the newer of the two dates. -/
def approvedNewerRec : ScanRecord :=
  { package_name := some "pkg", scan_date := some "2025-01-02T00:00:00",
    status := some "approved", cve_count := some 0, file := none }

/-- A scans directory holding a fresh approved scan shadowed by a newer
blocked scan of the same package. -/
def poolApprovedShadowed : List (String × ScanFileRead) :=
  [("a.json", ScanFileRead.object approvedOlderRec),
   ("b.json", ScanFileRead.object blockedNewerRec)]

/-- A scans directory holding a blocked scan shadowed by a newer approved
scan of the same package. -/
def poolBlockedShadowed : List (String × ScanFileRead) :=
  [("a.json", ScanFileRead.object blockedOlderRec),
   ("b.json", ScanFileRead.object approvedNewerRec)]

/-- A scans directory holding a single fresh approved scan of `pkg`. -/
def poolSingleApproved : List (String × ScanFileRead) :=
  [("a.json", ScanFileRead.object approvedOlderRec)]

/-- A scans directory holding a single blocked scan of `pkg`. -/
def poolSingleBlocked : List (String × ScanFileRead) :=
  [("a.json", ScanFileRead.object blockedOlderRec)]

/-- A scans directory holding a file of valid non-object JSON (such as
`[1, 2, 3]`) next to a valid approved scan of `pkg`. -/
def poolNonObject : List (String × ScanFileRead) :=
  [("bad.json", ScanFileRead.nonObject), ("a.json", ScanFileRead.object approvedOlderRec)]

/-- The record list `_load_scan_results` produces from
`poolSingleApproved`. -/
def loadedSingleApproved : List ScanRecord :=
  [{ approvedOlderRec with file := some "a.json" }]

/-- The record list `_load_scan_results` produces from
`poolSingleBlocked`. -/
def loadedSingleBlocked : List ScanRecord :=
  [{ blockedOlderRec with file := some "a.json" }]

/-- C1 (counterexample): the record pool `poolApprovedShadowed` contains a
record for `pkg` with status `approved` and a `scan_date` within the
freshness window at call time, yet the set returned by
`build_approved_list` on a request containing `pkg_1.0_amd64` does not
contain that key: a newer blocked scan of the same package shadows the
fresh approved one. -/
theorem build_fresh_approved_not_sufficient :
    (∃ rs, loadScanResults poolApprovedShadowed = Except.ok rs ∧
      ∃ r ∈ rs,
        r.package_name = some (extractPackageName "pkg_1.0_amd64") ∧
        r.status = some "approved" ∧
        isScanFresh parseFix 7200 48 r = true) ∧
    ∃ s c,
      build_approved_list parseFix 7200 48 poolApprovedShadowed true "" ["pkg_1.0_amd64"]
        = .ok (s, c) ∧
      "pkg_1.0_amd64" ∉ s := by
  constructor
  · exact ⟨_, rfl, by decide⟩
  · exact ⟨_, _, build_approved_list_eq_ok parseFix 7200 48 poolApprovedShadowed ""
      ["pkg_1.0_amd64"] _ rfl, by decide⟩

/-- C1 (amended): for every scan-record pool and requested key, if the
record that `_find_latest_scan` selects for the key's extracted name (the
matching record with the lexicographically greatest `scan_date`, earliest
on ties) has status `approved` and a `scan_date` within the freshness
window at call time, then the set returned by `build_approved_list` on a
request containing that key contains that key. -/
theorem mem_build_of_latest_approved_fresh
    (p : String → Option Int) (now max_scan_age_hours : Int)
    (scanFiles : List (String × ScanFileRead)) (writeOk : Bool) (oldContent : String)
    (package_list : List String) (package_key : String) (r : ScanRecord)
    (scan_results : List ScanRecord) (s : Finset String) (c : String)
    (hk : package_key ∈ package_list)
    (hload : loadScanResults scanFiles = .ok scan_results)
    (hfind : findLatestScan (extractPackageName package_key) scan_results = some r)
    (hfresh : isScanFresh p now max_scan_age_hours r = true)
    (hstatus : r.status.getD "error" = "approved")
    (hbuild : build_approved_list p now max_scan_age_hours scanFiles writeOk oldContent
      package_list = .ok (s, c)) :
    package_key ∈ s := by
  cases writeOk with
  | false =>
    rw [build_approved_list_eq_error_write p now max_scan_age_hours scanFiles oldContent
      package_list scan_results hload] at hbuild
    cases hbuild
  | true =>
    rw [build_approved_list_eq_ok p now max_scan_age_hours scanFiles oldContent
      package_list scan_results hload] at hbuild
    simp only [Except.ok.injEq, Prod.mk.injEq] at hbuild
    obtain ⟨hs, -⟩ := hbuild
    subst hs
    rw [List.mem_toFinset, List.mem_filter]
    exact ⟨hk, by simp [keyApproved, hfind, hfresh, hstatus]⟩

/-- C1 (witness): the amended statement applied to the single-record pool
`poolSingleApproved`, whose only scan of `pkg` is fresh and approved. -/
theorem mem_build_of_latest_approved_fresh_witness :
    "pkg_1.0_amd64" ∈
      ((["pkg_1.0_amd64"].filter
        (keyApproved parseFix 7200 48 loadedSingleApproved)).toFinset : Finset String) :=
  mem_build_of_latest_approved_fresh parseFix 7200 48 poolSingleApproved true ""
    ["pkg_1.0_amd64"] "pkg_1.0_amd64" { approvedOlderRec with file := some "a.json" }
    loadedSingleApproved _ _
    (by decide) rfl (by decide) (by decide) (by decide)
    (build_approved_list_eq_ok parseFix 7200 48 poolSingleApproved "" ["pkg_1.0_amd64"]
      loadedSingleApproved rfl)

/-- C2 (counterexample): the record pool `poolBlockedShadowed` contains a
record for `pkg` whose status is not `approved`, yet the requested key
`pkg_1.0_amd64`, whose extracted name equals that record's
`package_name`, is in the set returned by `build_approved_list`: a newer
approved scan of the same package overrides the blocked one. -/
theorem build_nonapproved_not_exclusive :
    (∃ rs, loadScanResults poolBlockedShadowed = Except.ok rs ∧
      ∃ r ∈ rs,
        r.package_name = some (extractPackageName "pkg_1.0_amd64") ∧
        r.status.getD "error" ≠ "approved") ∧
    ∃ s c,
      build_approved_list parseFix 7200 48 poolBlockedShadowed true "" ["pkg_1.0_amd64"]
        = .ok (s, c) ∧
      "pkg_1.0_amd64" ∈ s := by
  constructor
  · exact ⟨_, rfl, by decide⟩
  · exact ⟨_, _, build_approved_list_eq_ok parseFix 7200 48 poolBlockedShadowed ""
      ["pkg_1.0_amd64"] _ rfl, by decide⟩

/-- C2 (amended): for every scan-record pool and requested key, if the
record that `_find_latest_scan` selects for the key's extracted name has a
status different from `approved`, then the key is not in the set returned
by `build_approved_list`, regardless of that record's freshness. -/
theorem not_mem_build_of_latest_not_approved
    (p : String → Option Int) (now max_scan_age_hours : Int)
    (scanFiles : List (String × ScanFileRead)) (writeOk : Bool) (oldContent : String)
    (package_list : List String) (package_key : String) (r : ScanRecord)
    (scan_results : List ScanRecord) (s : Finset String) (c : String)
    (hload : loadScanResults scanFiles = .ok scan_results)
    (hfind : findLatestScan (extractPackageName package_key) scan_results = some r)
    (hstatus : r.status.getD "error" ≠ "approved")
    (hbuild : build_approved_list p now max_scan_age_hours scanFiles writeOk oldContent
      package_list = .ok (s, c)) :
    package_key ∉ s := by
  cases writeOk with
  | false =>
    rw [build_approved_list_eq_error_write p now max_scan_age_hours scanFiles oldContent
      package_list scan_results hload] at hbuild
    cases hbuild
  | true =>
    rw [build_approved_list_eq_ok p now max_scan_age_hours scanFiles oldContent
      package_list scan_results hload] at hbuild
    simp only [Except.ok.injEq, Prod.mk.injEq] at hbuild
    obtain ⟨hs, -⟩ := hbuild
    subst hs
    rw [List.mem_toFinset, List.mem_filter]
    rintro ⟨-, happ⟩
    simp only [keyApproved, hfind, Bool.and_eq_true, beq_iff_eq] at happ
    exact hstatus happ.2

/-- C2 (witness): the amended statement applied to the single-record pool
`poolSingleBlocked`, whose only scan of `pkg` is blocked. -/
theorem not_mem_build_of_latest_not_approved_witness :
    "pkg_1.0_amd64" ∉
      ((["pkg_1.0_amd64"].filter
        (keyApproved parseFix 7200 48 loadedSingleBlocked)).toFinset : Finset String) :=
  not_mem_build_of_latest_not_approved parseFix 7200 48 poolSingleBlocked true ""
    ["pkg_1.0_amd64"] "pkg_1.0_amd64" { blockedOlderRec with file := some "a.json" }
    loadedSingleBlocked _ _
    rfl (by decide) (by decide)
    (build_approved_list_eq_ok parseFix 7200 48 poolSingleBlocked "" ["pkg_1.0_amd64"]
      loadedSingleBlocked rfl)

/-- C3 (code bug): the claim that `_load_scan_results` never raises and
that every remaining parsed record is still returned fails on the code: a
scan file holding valid JSON that is not an object makes
`result["_file"] = scan_file.name` raise a `TypeError` that the
`except (json.JSONDecodeError, IOError)` clause does not catch, so the
batch aborts and the following good record is lost. -/
theorem loadScanResults_aborts_on_non_object :
    loadScanResults
        [("bad.json", ScanFileRead.nonObject),
         ("good.json", ScanFileRead.object approvedOlderRec)]
      = .error "TypeError" := rfl

/-- C4: on the records whose `package_name` equals the requested name (in
their original order), `_find_latest_scan` returns nothing when there are
none, and otherwise returns the record with the lexicographically greatest
`scan_date` string (missing `scan_date` read as the empty string), picking
on ties the first such record in the original order: every matching record
strictly before the result has a strictly smaller key, and no matching
record has a strictly greater key. -/
theorem findLatestScan_spec (package_name : String) (scan_results : List ScanRecord) :
    (scan_results.filter (fun scan => scan.package_name == some package_name) = [] →
      findLatestScan package_name scan_results = none) ∧
    (scan_results.filter (fun scan => scan.package_name == some package_name) ≠ [] →
      ∃ r l₁ l₂,
        findLatestScan package_name scan_results = some r ∧
        scan_results.filter (fun scan => scan.package_name == some package_name)
          = l₁ ++ r :: l₂ ∧
        (∀ s ∈ l₁, charListLt (scanKey s).data (scanKey r).data = true) ∧
        (∀ s ∈ scan_results.filter (fun scan => scan.package_name == some package_name),
          charListLt (scanKey r).data (scanKey s).data = false)) := by
  constructor
  · intro h
    simp [findLatestScan, h]
  · intro h
    have hne : firstMaxScan
        (scan_results.filter (fun scan => scan.package_name == some package_name)) ≠ none := by
      intro hn
      exact h ((firstMaxScan_eq_none_iff _).mp hn)
    obtain ⟨r, hr⟩ := Option.ne_none_iff_exists'.mp hne
    obtain ⟨l₁, l₂, hsplit, hlt, hmax⟩ := firstMaxScan_spec _ r hr
    refine ⟨r, l₁, l₂, ?_, hsplit, hlt, hmax⟩
    rw [findLatestScan]
    simp only [List.isEmpty_iff]
    rw [if_neg h, head_sortDescByScanDate, hr]

/-- C4 (witness): on a pool whose two matching scans of `pkg` have
distinct dates, the resolver picks the newer one. -/
theorem findLatestScan_spec_witness :
    ∃ r l₁ l₂,
      findLatestScan "pkg" [approvedOlderRec, blockedNewerRec] = some r ∧
      [approvedOlderRec, blockedNewerRec].filter
        (fun scan => scan.package_name == some "pkg") = l₁ ++ r :: l₂ ∧
      (∀ s ∈ l₁, charListLt (scanKey s).data (scanKey r).data = true) ∧
      (∀ s ∈ [approvedOlderRec, blockedNewerRec].filter
          (fun scan => scan.package_name == some "pkg"),
        charListLt (scanKey r).data (scanKey s).data = false) :=
  (findLatestScan_spec "pkg" [approvedOlderRec, blockedNewerRec]).2 (by decide)

/-- C5: `_is_scan_fresh` holds iff `scan_date` is present, non-empty, and
parses to a timestamp strictly less than `max_scan_age_hours` hours before
`now` (so a missing or unparsable date fails closed); and, at the default
48-hour window, a record exactly 48 hours old is stale while one a second
inside the window is fresh. -/
theorem isScanFresh_spec :
    (∀ (p : String → Option Int) (now max_scan_age_hours : Int) (r : ScanRecord),
      isScanFresh p now max_scan_age_hours r = true ↔
        ∃ scan_date_str scan_date,
          r.scan_date = some scan_date_str ∧ scan_date_str ≠ "" ∧
          p scan_date_str = some scan_date ∧
          now - scan_date < max_scan_age_hours * 3600) ∧
    isScanFresh parseFix (48 * 3600) 48 approvedOlderRec = false ∧
    isScanFresh parseFix (48 * 3600 - 1) 48 approvedOlderRec = true := by
  refine ⟨?_, by decide, by decide⟩
  intro p now max_scan_age_hours r
  cases hd : r.scan_date with
  | none => simp [isScanFresh, hd]
  | some scan_date_str =>
    by_cases he : scan_date_str = ""
    · simp [isScanFresh, hd, he]
    · cases hp : p scan_date_str with
      | none => simp [isScanFresh, hd, he, hp]
      | some scan_date => simp [isScanFresh, hd, he, hp]

/-- C5 (witness): a concrete fresh record satisfies the freshness
characterisation. -/
theorem isScanFresh_spec_witness :
    isScanFresh parseFix 7200 48 approvedOlderRec = true ↔
      ∃ scan_date_str scan_date,
        approvedOlderRec.scan_date = some scan_date_str ∧ scan_date_str ≠ "" ∧
        parseFix scan_date_str = some scan_date ∧
        7200 - scan_date < 48 * 3600 :=
  isScanFresh_spec.1 parseFix 7200 48 approvedOlderRec

/-- C6: the set `build_approved_list` returns (and hence every key in the
written output) is a subset of the requested keys: no key is invented. -/
theorem build_subset_of_requested
    (p : String → Option Int) (now max_scan_age_hours : Int)
    (scanFiles : List (String × ScanFileRead)) (writeOk : Bool) (oldContent : String)
    (package_list : List String) (s : Finset String) (c : String)
    (hbuild : build_approved_list p now max_scan_age_hours scanFiles writeOk oldContent
      package_list = .ok (s, c)) :
    ∀ package_key ∈ s, package_key ∈ package_list := by
  cases hload : loadScanResults scanFiles with
  | error e =>
    rw [build_approved_list_eq_error_load p now max_scan_age_hours scanFiles writeOk
      oldContent package_list e hload] at hbuild
    cases hbuild
  | ok scan_results =>
    cases writeOk with
    | false =>
      rw [build_approved_list_eq_error_write p now max_scan_age_hours scanFiles oldContent
        package_list scan_results hload] at hbuild
      cases hbuild
    | true =>
      rw [build_approved_list_eq_ok p now max_scan_age_hours scanFiles oldContent
        package_list scan_results hload] at hbuild
      simp only [Except.ok.injEq, Prod.mk.injEq] at hbuild
      obtain ⟨hs, -⟩ := hbuild
      subst hs
      intro package_key hk
      exact (List.mem_filter.mp (List.mem_toFinset.mp hk)).1

/-- C6 (witness): the subset property at a concrete run, specialised to
the one key the run approves. -/
theorem build_subset_of_requested_witness :
    "pkg_1.0_amd64" ∈ ["pkg_1.0_amd64"] :=
  build_subset_of_requested parseFix 7200 48 poolSingleApproved true "" ["pkg_1.0_amd64"] _ _
    (build_approved_list_eq_ok parseFix 7200 48 poolSingleApproved "" ["pkg_1.0_amd64"]
      loadedSingleApproved rfl)
    "pkg_1.0_amd64" (by decide)

/-- C7: the result of `build_approved_list` (approved set and written
bytes) is invariant under permuting the request list, and the written
content is the approved keys in sorted order, each exactly once — so two
runs over the same pool and request set produce byte-identical output. -/
theorem build_output_canonical
    (p : String → Option Int) (now max_scan_age_hours : Int)
    (scanFiles : List (String × ScanFileRead)) (writeOk : Bool) (oldContent : String)
    (package_list₁ package_list₂ : List String) (s : Finset String) (c : String)
    (hperm : package_list₁.Perm package_list₂)
    (hbuild : build_approved_list p now max_scan_age_hours scanFiles writeOk oldContent
      package_list₁ = .ok (s, c)) :
    build_approved_list p now max_scan_age_hours scanFiles writeOk oldContent package_list₂
      = .ok (s, c) ∧
    ∃ keys : List String,
      c = String.join (keys.map (fun package_key => package_key ++ "\n")) ∧
      keys.Sorted (· ≤ ·) ∧ keys.Nodup ∧ ∀ package_key, package_key ∈ keys ↔ package_key ∈ s := by
  cases hload : loadScanResults scanFiles with
  | error e =>
    rw [build_approved_list_eq_error_load p now max_scan_age_hours scanFiles writeOk
      oldContent package_list₁ e hload] at hbuild
    cases hbuild
  | ok scan_results =>
    cases writeOk with
    | false =>
      rw [build_approved_list_eq_error_write p now max_scan_age_hours scanFiles oldContent
        package_list₁ scan_results hload] at hbuild
      cases hbuild
    | true =>
      rw [build_approved_list_eq_ok p now max_scan_age_hours scanFiles oldContent
        package_list₁ scan_results hload] at hbuild
      simp only [Except.ok.injEq, Prod.mk.injEq] at hbuild
      obtain ⟨hs, hc⟩ := hbuild
      have hfe : (package_list₂.filter
            (keyApproved p now max_scan_age_hours scan_results)).toFinset
          = (package_list₁.filter
            (keyApproved p now max_scan_age_hours scan_results)).toFinset :=
        List.toFinset_eq_of_perm _ _ (hperm.filter _).symm
      constructor
      · rw [build_approved_list_eq_ok p now max_scan_age_hours scanFiles oldContent
          package_list₂ scan_results hload, hfe, hc, hs]
      · refine ⟨Finset.sort (· ≤ ·) s, ?_, ?_, ?_, ?_⟩
        · rw [← hc, ← hs]; rfl
        · exact Finset.sort_sorted _ _
        · exact Finset.sort_nodup _ _
        · intro package_key; exact Finset.mem_sort _

/-- C7 (witness): two opposite request orders over the same pool give the
same result, whose content is the sorted deduplicated key list. -/
theorem build_output_canonical_witness :
    build_approved_list parseFix 7200 48 poolSingleApproved true ""
      ["zzz_1_amd64", "pkg_1.0_amd64"] =
      .ok ((["pkg_1.0_amd64", "zzz_1_amd64"].filter
              (keyApproved parseFix 7200 48 loadedSingleApproved)).toFinset,
           renderApprovedList
             (["pkg_1.0_amd64", "zzz_1_amd64"].filter
               (keyApproved parseFix 7200 48 loadedSingleApproved)).toFinset) ∧
    ∃ keys : List String,
      renderApprovedList
          (["pkg_1.0_amd64", "zzz_1_amd64"].filter
            (keyApproved parseFix 7200 48 loadedSingleApproved)).toFinset
        = String.join (keys.map (fun package_key => package_key ++ "\n")) ∧
      keys.Sorted (· ≤ ·) ∧ keys.Nodup ∧
      ∀ package_key, package_key ∈ keys ↔ package_key ∈
        (["pkg_1.0_amd64", "zzz_1_amd64"].filter
          (keyApproved parseFix 7200 48 loadedSingleApproved)).toFinset :=
  build_output_canonical parseFix 7200 48 poolSingleApproved true ""
    ["pkg_1.0_amd64", "zzz_1_amd64"] ["zzz_1_amd64", "pkg_1.0_amd64"] _ _
    (List.Perm.swap _ _ _)
    (build_approved_list_eq_ok parseFix 7200 48 poolSingleApproved ""
      ["pkg_1.0_amd64", "zzz_1_amd64"] loadedSingleApproved rfl)

/-- C8 (code bug): the claim that `build_approved_list` raises if and
only if the output write fails is refuted on the code: with a valid
non-object JSON file in the scans directory, the unguarded call to
`_load_scan_results` propagates a `TypeError` even though the output
write would succeed (`writeOk = true`), so the call raises with no write
failure. -/
theorem build_raises_without_write_failure :
    build_approved_list parseFix 7200 48 poolNonObject true "" ["pkg_1.0_amd64"]
      = .error "TypeError" := rfl

/-- C9: `_extract_package_name` returns the prefix of the key up to the
first underscore, the whole key when no underscore occurs, and in
particular maps the two documented examples correctly. -/
theorem extractPackageName_spec :
    (∀ package_key : String,
      (extractPackageName package_key).data
        = package_key.data.takeWhile (fun ch => ch != '_')) ∧
    extractPackageName "curl_7.81.0-1ubuntu1.16_amd64" = "curl" ∧
    extractPackageName "simple-package" = "simple-package" := by
  refine ⟨?_, by decide, by decide⟩
  intro package_key
  rw [extractPackageName]
  by_cases h : package_key.data.contains '_'
  · rw [if_pos h]
    show (pySplit '_' package_key.data).headD [] = _
    rw [pySplit, pySplitGo_headD]
    simp
  · rw [if_neg h]
    rw [takeWhile_ne_of_not_contains _ _ (Bool.eq_false_iff.mpr h)]

/-- C10: a run with an empty request list (over any readable scans
directory) succeeds, returns the empty set, and still overwrites the
output file with empty content, whatever approved list was previously
stored there. -/
theorem build_empty_request
    (p : String → Option Int) (now max_scan_age_hours : Int)
    (scanFiles : List (String × ScanFileRead)) (oldContent : String)
    (scan_results : List ScanRecord)
    (hload : loadScanResults scanFiles = .ok scan_results) :
    build_approved_list p now max_scan_age_hours scanFiles true oldContent []
      = .ok (∅, "") := by
  rw [build_approved_list_eq_ok p now max_scan_age_hours scanFiles oldContent []
    scan_results hload]
  simp [renderApprovedList, Finset.sort_empty, String.join]

/-- C10 (witness): the empty-request run at a concrete pool with a prior
output file content. -/
theorem build_empty_request_witness :
    build_approved_list parseFix 7200 48 poolSingleApproved true "old-approved.txt content" []
      = .ok (∅, "") :=
  build_empty_request parseFix 7200 48 poolSingleApproved "old-approved.txt content"
    loadedSingleApproved rfl
